import Mathlib

/-!
Shallow embedding of the `monarch_tools` repository (Chase statement
extractor and merchant-categorization engine) together with theorems
settling the specification claims.

Source files embedded:
- `src/monarch_tools/extractors/chase.py` (money/date lexing, table row
  extractor, line row extractor, extraction orchestrator)
- `src/monarch_tools/categorize_engine.py` (normalization, rules,
  `categorize_merchant`, `load_rules` pattern compilation)
- `src/monarch_tools/commands/categorize.py` (rule-based categorize pass)
- `src/monarch_tools/categorize.py` (interactive session pattern scan)

Python machine details are modelled as follows: `float` money values are
represented exactly as an IEEE-style sign bit plus a natural number of
cents (all money strings accepted by the source carry at most two decimal
places, so the value is exact and `f-string` `.2f` formatting is exact
decimal formatting; the sign bit keeps Python's `-0.00` output
distinguishable); Python's `re` module, an external library from the
embedding's point of view, is modelled by a small regex engine covering
the fragment the rules use (literals, `.`, `|`, `*`, grouping), including
compile-time failure for malformed patterns such as an unmatched `(`.
-/

set_option maxRecDepth 20000

namespace Monarch

/-- ASCII whitespace, mirroring the whitespace set Python's `str.strip`
and `\s` recognize on the statement data (which is ASCII). -/
def isSpaceB (c : Char) : Bool :=
  c = ' ' || c = '\t' || c = '\n' || c = '\r' || c = '\x0b' || c = '\x0c'

/-- ASCII digit test, mirroring `\d` on the ASCII statement data. -/
def isDigitB (c : Char) : Bool :=
  '0' ≤ c && c ≤ '9'

def trimLeftL (l : List Char) : List Char := l.dropWhile isSpaceB

def trimRightL (l : List Char) : List Char := (l.reverse.dropWhile isSpaceB).reverse

/-- Embedding of Python `str.strip()`. -/
def sTrim (s : String) : String := ⟨trimRightL (trimLeftL s.data)⟩

/-- Embedding of Python `str.lower()` (ASCII data). -/
def sToLower (s : String) : String := ⟨s.data.map Char.toLower⟩

/-- Embedding of `sep.join(items)`. -/
def joinWith (sep : String) : List String → String
  | [] => ""
  | [s] => s
  | s :: rest => s ++ sep ++ joinWith sep rest

/-- List prefix test. -/
def startsWithL : List Char → List Char → Bool
  | [], _ => true
  | _ :: _, [] => false
  | p :: ps, c :: cs => p = c && startsWithL ps cs

/-- List suffix test. -/
def endsWithL (p l : List Char) : Bool := startsWithL p.reverse l.reverse

/-- Substring containment (Python `in` on strings). -/
def isInfixB (p : List Char) : List Char → Bool
  | [] => startsWithL p []
  | c :: cs => startsWithL p (c :: cs) || isInfixB p cs

/-- Split a character list at every occurrence of `sep` (Python
`str.split(sep)` semantics: no empty-part suppression). -/
def splitOnCharAux (sep : Char) : List Char → List Char → List (List Char)
  | [], acc => [acc.reverse]
  | c :: cs, acc =>
    if c = sep then acc.reverse :: splitOnCharAux sep cs []
    else splitOnCharAux sep cs (c :: acc)

def splitOnChar (sep : Char) (l : List Char) : List (List Char) :=
  splitOnCharAux sep l []

/-- Embedding of `str.replace(",", "")`. -/
def removeCommas (l : List Char) : List Char := l.filter (fun c => c ≠ ',')

/-- Numeric value of a digit string. -/
def natOfDigits (l : List Char) : Nat :=
  l.foldl (fun a c => a * 10 + (c.toNat - '0'.toNat)) 0

/-- Python `str.split()` with no argument: split on whitespace runs,
dropping empty parts (accumulator carries the current word reversed). -/
def wordsAux : List Char → List Char → List String
  | [], acc => if acc = [] then [] else [⟨acc.reverse⟩]
  | c :: cs, acc =>
    if isSpaceB c then
      if acc = [] then wordsAux cs []
      else ⟨acc.reverse⟩ :: wordsAux cs []
    else wordsAux cs (c :: acc)

/-- Python `str.splitlines()` for the newline conventions `\n`, `\r`,
`\r\n` (the forms pdfplumber text uses). -/
def splitLinesAux : List Char → List Char → List String
  | [], acc => if acc = [] then [] else [⟨acc.reverse⟩]
  | '\r' :: '\n' :: cs, acc => ⟨acc.reverse⟩ :: splitLinesAux cs []
  | '\n' :: cs, acc => ⟨acc.reverse⟩ :: splitLinesAux cs []
  | '\r' :: cs, acc => ⟨acc.reverse⟩ :: splitLinesAux cs []
  | c :: cs, acc => splitLinesAux cs (c :: acc)

def splitLinesStr (s : String) : List String := splitLinesAux s.data []

/-! ### Money and date lexing (`chase.py`) -/

/-- A digit run whose length lies in `[lo, hi]`. -/
def digitsLen (l : List Char) (lo hi : Nat) : Bool :=
  l.all isDigitB && decide (lo ≤ l.length) && decide (l.length ≤ hi)

/-- Core of `DATE_RE = ^\d{1,2}/\d{1,2}/\d{2,4}$`: the pieces contain no
slash, so the anchored regex holds exactly when splitting on `/` yields
three digit runs of the right lengths. -/
def dateCore (l : List Char) : Bool :=
  match splitOnChar '/' l with
  | [a, b, c] => digitsLen a 1 2 && digitsLen b 1 2 && digitsLen c 2 4
  | _ => false

/-- Embedding of `_looks_like_date`. -/
def looks_like_date (s : String) : Bool := dateCore (sTrim s).data

/-- Comma-grouped integer part `\d{1,3}(?:,\d{3})*`. -/
def groupedInt (l : List Char) : Bool :=
  match splitOnChar ',' l with
  | [] => false
  | g :: gs => digitsLen g 1 3 && gs.all (fun h => h.all isDigitB && decide (h.length = 3))

/-- Body of `MONEY_RE` after the optional sign and dollar:
`\d{1,3}(?:,\d{3})*(?:\.\d{2})?`. -/
def moneyBody (l : List Char) : Bool :=
  match splitOnChar '.' l with
  | [ip] => groupedInt ip
  | [ip, fp] => groupedInt ip && digitsLen fp 2 2
  | _ => false

/-- Embedding of `_looks_like_money` /
`MONEY_RE = ^-?\$?\d{1,3}(?:,\d{3})*(?:\.\d{2})?$`. -/
def looks_like_money (s : String) : Bool :=
  let l0 := (sTrim s).data
  let l1 := if startsWithL ['-'] l0 then l0.drop 1 else l0
  let l2 := if startsWithL ['$'] l1 then l1.drop 1 else l1
  moneyBody l2

/-- A Python float money value, represented exactly: IEEE sign bit plus
magnitude in cents.  All money strings the source accepts have at most
two decimal places, so this is exact, and `f"{v:.2f}"` is exact decimal
formatting (including `-0.00` for negative zero). -/
structure Money where
  neg : Bool
  cents : Nat
deriving DecidableEq, Repr

/-- Anchored check of `^-?\d+(?:\.\d{2})?$` (the residual check inside
`_parse_money`). -/
def moneyCoreMatch (s : String) : Bool :=
  let l0 := s.data
  let l := if startsWithL ['-'] l0 then l0.drop 1 else l0
  match splitOnChar '.' l with
  | [ip] => decide (ip ≠ []) && ip.all isDigitB
  | [ip, fp] => decide (ip ≠ []) && ip.all isDigitB && digitsLen fp 2 2
  | _ => false

/-- Cents of an unsigned residual (`123` or `123.45`). -/
def centsOfBody (l : List Char) : Nat :=
  match splitOnChar '.' l with
  | [ip] => natOfDigits ip * 100
  | [ip, fp] => natOfDigits ip * 100 + natOfDigits fp
  | _ => 0

/-- Value of a signed residual, as `float(s)` produces it. -/
def valueOf (l : List Char) : Money :=
  if startsWithL ['-'] l then ⟨true, centsOfBody (l.drop 1)⟩
  else ⟨false, centsOfBody l⟩

/-- Python's unary negation on the float (`value = -value`): flips the
sign bit, also on zero. -/
def negMoney (m : Money) : Money := ⟨!m.neg, m.cents⟩

/-- The parenthesized-negative test of `_parse_money` on the trimmed
input: `s.startswith("(") and s.endswith(")")`. -/
def parenFlag (s0 : String) : Bool :=
  let s := sTrim s0
  startsWithL ['('] s.data && endsWithL [')'] s.data

/-- The cleaning pipeline of `_parse_money`: trim, strip one layer of
parentheses (with inner trim), strip a leading `$` (with trim), drop all
commas. -/
def cleanedMoney (s0 : String) : String :=
  let s := sTrim s0
  let s1 :=
    if startsWithL ['('] s.data && endsWithL [')'] s.data then
      sTrim ⟨(s.data.drop 1).dropLast⟩
    else s
  let s2 := if startsWithL ['$'] s1.data then sTrim ⟨s1.data.drop 1⟩ else s1
  ⟨removeCommas s2.data⟩

/-- Embedding of `_parse_money`: `None` on empty/non-money input, else
the cleaned residual must match `^-?\d+(?:\.\d{2})?$`; a parenthesized
input negates the parsed value. -/
def parse_money (s0 : String) : Option Money :=
  if (sTrim s0).data = [] then none
  else
    let t := cleanedMoney s0
    if moneyCoreMatch t then
      let v := valueOf t.data
      some (if parenFlag s0 then negMoney v else v)
    else none

/-- Two-digit zero padding. -/
def pad2 (n : Nat) : String := if n < 10 then "0" ++ toString n else toString n

/-- Embedding of `f"{v:.2f}"` on the exactly-represented money value. -/
def fmt2 (m : Money) : String :=
  (if m.neg then "-" else "") ++ toString (m.cents / 100) ++ "." ++ pad2 (m.cents % 100)

example : parse_money "(123.45)" = some ⟨true, 12345⟩ := by decide
example : parse_money "$1,234.56" = some ⟨false, 123456⟩ := by decide
example : parse_money "abc" = none := by decide
example : parse_money "(-123.45)" = some ⟨false, 12345⟩ := by decide
example : parse_money "-$1,234.56" = none := by decide
example : looks_like_money "-$1,234.56" = true := by decide
example : looks_like_date " 3/1/2024 " = true := by decide
example : looks_like_date "3/1/1" = false := by decide
example : fmt2 ⟨false, 120000⟩ = "1200.00" := by decide
example : fmt2 ⟨true, 5⟩ = "-0.05" := by decide

/-! ### Table row extractor (`_extract_transactions_from_table`) -/

/-- Embedding of `_clean_cell`: `None` becomes the empty string, a text
cell is stripped. -/
def clean_cell : Option String → String
  | none => ""
  | some s => sTrim s

/-- Header-row detection: the joined, lower-cased row text contains both
`"date"` and `"description"`. -/
def headerLike (row : List String) : Bool :=
  let j := sToLower (joinWith " " row)
  isInfixB "date".data j.data && isInfixB "description".data j.data

/-- Indices of the money-like cells of `row`, counting from `k`
(embedding of `[i for i, val in enumerate(row) if _looks_like_money(val)]`). -/
def moneyIndicesFrom (k : Nat) : List String → List Nat
  | [] => []
  | c :: cs =>
    if looks_like_money c then k :: moneyIndicesFrom (k + 1) cs
    else moneyIndicesFrom (k + 1) cs

/-- The optional post date: if the cell after the transaction date is
also date-like it is consumed (`idx` becomes 2, else 1). -/
def postDateOf (rest : List String) : String × Nat :=
  match rest.head? with
  | some c => if looks_like_date c then (c, 2) else ("", 1)
  | none => ("", 1)

/-- Description assembly: skip leading empty cells after `idx`, take
non-money cells (keeping the non-empty ones); if that gives nothing,
fall back to joining the non-empty interior cells. -/
def descriptionOf (row : List String) (idx : Nat) : String :=
  let afterEmpties := (row.drop idx).dropWhile (fun c => c = "")
  let parts := (afterEmpties.takeWhile (fun c => !looks_like_money c)).filter (fun c => c ≠ "")
  let description := sTrim (joinWith " " parts)
  if description = "" then
    sTrim (joinWith " " (((row.drop 1).dropLast).filter (fun c => c ≠ "")))
  else description

/-- The amount cell: the last money-like cell, empty when there is none. -/
def amountStrOf (row : List String) (idxs : List Nat) : String :=
  match idxs.getLast? with
  | some i => row.getD i ""
  | none => ""

/-- The balance cell: with at least two money-like cells, the
second-to-last one (the source additionally checks the two indices
differ). -/
def balanceStrOf (row : List String) (idxs : List Nat) : String :=
  if 2 ≤ idxs.length then
    match idxs.dropLast.getLast?, idxs.getLast? with
    | some bi, some li => if bi ≠ li then row.getD bi "" else ""
    | _, _ => ""
  else ""

/-- Balance normalization: formatted when it parses, blank otherwise. -/
def balanceNormOf (s : String) : String :=
  match parse_money s with
  | some b => fmt2 b
  | none => ""

/-- Embedding of the per-row body of `_extract_transactions_from_table`:
`none` means the row is skipped (`continue`). -/
def rowToTxn (raw_row : List (Option String)) : Option (List String) :=
  match raw_row with
  | [] => none
  | h :: t =>
    let first := clean_cell h
    let rest := t.map clean_cell
    let row := first :: rest
    if headerLike row then none
    else if looks_like_date first then
      let pd := postDateOf rest
      let description := descriptionOf row pd.2
      let idxs := moneyIndicesFrom 0 row
      let amount_str := amountStrOf row idxs
      let balance_str := balanceStrOf row idxs
      match parse_money amount_str with
      | none => none
      | some a =>
        some [first, pd.1, description, fmt2 a, balanceNormOf balance_str,
              joinWith " | " row]
    else none

/-- Embedding of `_extract_transactions_from_table`. -/
def extract_transactions_from_table (table : List (List (Option String))) :
    List (List String) :=
  table.filterMap rowToTxn

/-- The money-like cells of a row, in order (spec-side view of the
money-index selection: the last one is the amount cell, the
second-to-last the balance cell). -/
def moneyCells (row : List String) : List String :=
  row.filter (fun c => looks_like_money c)

example :
    extract_transactions_from_table
      [[some "03/01/24", some "DESCRIPTION TEXT", some "45.00", some "1,200.00"]] =
      [["03/01/24", "", "DESCRIPTION TEXT", "1200.00", "45.00",
        "03/01/24 | DESCRIPTION TEXT | 45.00 | 1,200.00"]] := by decide

example :
    extract_transactions_from_table [[some "01/01/24", some "update description", some "5.00"]] =
      [] := by decide

example :
    extract_transactions_from_table [[some "01/01/24", some "STORE", some "-$1,234.56", some "45.00"]] =
      [["01/01/24", "", "STORE", "45.00", "",
        "01/01/24 | STORE | -$1,234.56 | 45.00"]] := by decide

example : extract_transactions_from_table [[some "Date", some "Description", some "Amount"]] = [] := by decide

/-! ### Regex model

Python's `re` module is an external library; it is modelled here for the
fragment the rule files use: literal characters, `.`, alternation `|`,
repetition `*`, and grouping.  `search` is existence of a matching
substring (the source only uses its truthiness), optionally
case-insensitive (`re.IGNORECASE`).  Compilation of a pattern string can
fail (`re.error`), e.g. on an unmatched parenthesis. -/

inductive Regex where
  | fail : Regex
  | eps : Regex
  | lit : Char → Regex
  | anyc : Regex
  | cat : Regex → Regex → Regex
  | alt : Regex → Regex → Regex
  | star : Regex → Regex
deriving DecidableEq, Repr

namespace Regex

/-- Does the regex accept the empty string? -/
def nullable : Regex → Bool
  | fail => false
  | eps => true
  | lit _ => false
  | anyc => false
  | cat a b => nullable a && nullable b
  | alt a b => nullable a || nullable b
  | star _ => true

/-- Character comparison, case-folded when `ci` is set. -/
def ceq (ci : Bool) (p c : Char) : Bool :=
  if ci then p.toLower = c.toLower else p = c

/-- Brzozowski derivative with respect to one input character. -/
def deriv (ci : Bool) : Regex → Char → Regex
  | fail, _ => fail
  | eps, _ => fail
  | lit p, c => if ceq ci p c then eps else fail
  | anyc, c => if c = '\n' then fail else eps
  | cat a b, c =>
    if nullable a then alt (cat (deriv ci a c) b) (deriv ci b c)
    else cat (deriv ci a c) b
  | alt a b, c => alt (deriv ci a c) (deriv ci b c)
  | star a, c => cat (deriv ci a c) (star a)

/-- Does some prefix of `l` match `r` entirely? -/
def hasPrefixMatch (ci : Bool) : Regex → List Char → Bool
  | r, [] => nullable r
  | r, c :: cs => nullable r || hasPrefixMatch ci (deriv ci r c) cs

/-- Does some substring of `l` match `r`?  (Truthiness of
`re.search`.) -/
def searchL (ci : Bool) (r : Regex) : List Char → Bool
  | [] => nullable r
  | c :: cs => hasPrefixMatch ci r (c :: cs) || searchL ci r cs

/-- Embedding of the truthiness of `compiled.search(s)`. -/
def search (ci : Bool) (r : Regex) (s : String) : Bool := searchL ci r s.data

end Regex

/-- Literal-string regex. -/
def rlit (s : String) : Regex :=
  s.data.foldr (fun c acc => Regex.cat (Regex.lit c) acc) Regex.eps

/-- One frame of the pattern-compilation stack: completed alternatives
(reversed) and the current sequence (reversed). -/
structure PFrame where
  alts : List Regex
  seq : List Regex
deriving Repr

/-- Join a reversed sequence into one concatenation. -/
def seqJoin (seq : List Regex) : Regex :=
  seq.reverse.foldr Regex.cat Regex.eps

/-- Join reversed alternatives into one alternation. -/
def altJoin : List Regex → Regex
  | [] => Regex.fail
  | [r] => r
  | r :: rs => Regex.alt (altJoin rs) r

/-- Close a frame into a single regex. -/
def closeFrame (f : PFrame) : Regex := altJoin (seqJoin f.seq :: f.alts)

/-- One step of pattern compilation; errors model `re.error`. -/
def pstep (st : PFrame × List PFrame) (c : Char) : Except String (PFrame × List PFrame) :=
  let f := st.1
  match c with
  | '(' => .ok (⟨[], []⟩, f :: st.2)
  | ')' =>
    match st.2 with
    | [] => .error "unbalanced parenthesis"
    | g :: rest => .ok (⟨g.alts, closeFrame f :: g.seq⟩, rest)
  | '|' => .ok (⟨seqJoin f.seq :: f.alts, []⟩, st.2)
  | '*' =>
    match f.seq with
    | [] => .error "nothing to repeat"
    | Regex.star _ :: _ => .error "multiple repeat"
    | r :: rs => .ok (⟨f.alts, Regex.star r :: rs⟩, st.2)
  | '.' => .ok (⟨f.alts, Regex.anyc :: f.seq⟩, st.2)
  | c => .ok (⟨f.alts, Regex.lit c :: f.seq⟩, st.2)

/-- Compilation of a pattern string (`re.compile`), modelled for the
fragment above: `none` is `re.error`. -/
def compileRe (pat : String) : Option Regex :=
  match pat.data.foldlM pstep (⟨[], []⟩, ([] : List PFrame)) with
  | .error _ => none
  | .ok (f, stack) =>
    match stack with
    | [] => some (closeFrame f)
    | _ :: _ => none

example : compileRe "(" = none := by decide
example : compileRe "a)" = none := by decide
example : compileRe "*" = none := by decide
example : (compileRe "coffee").isSome = true := by decide
example :
    ((compileRe "coffee").map (fun r => Regex.search true r "STARBUCKS COFFEE #123")).getD false = true := by
  decide
example :
    ((compileRe "coffee").map (fun r => Regex.search false r "STARBUCKS COFFEE #123")).getD true = false := by
  decide
example : Regex.search false (rlit "coffee") "a coffee bar" = true := by decide
example :
    ((compileRe "co(ff|x)*ee").map (fun r => Regex.search true r "ACOFFFFEEZ")).getD false = true := by
  decide

/-! ### Categorization engine (`categorize_engine.py`) -/

/-- Embedding of `normalize_merchant`: trim and collapse internal
whitespace runs (`" ".join((s or "").strip().split())`). -/
def normalize_merchant (s : String) : String :=
  joinWith " " (wordsAux s.data [])

/-- Embedding of `PatternRule`: the stored pattern text, its category,
and the compiled regex (`re.compile(rx)` — no flags, hence
case-sensitive matching). -/
structure PatternRule where
  regex : String
  category : String
  compiled : Regex
deriving Repr

/-- Embedding of `Rules` (engine format: `merchants` map and ordered
`patterns`). -/
structure Rules where
  version : Nat
  merchants : List (String × String)
  patterns : List PatternRule

/-- Python `dict.get` on the merchants map. -/
def lookupAssoc : List (String × String) → String → Option String
  | [], _ => none
  | (k, v) :: rest, key => if k = key then some v else lookupAssoc rest key

/-- The pattern loop of `categorize_merchant`: first pattern whose
(case-sensitive) search succeeds wins. -/
def scanPatterns (ps : List PatternRule) (m : String) : Option String :=
  match ps with
  | [] => none
  | pr :: rest =>
    if Regex.search false pr.compiled m then some pr.category
    else scanPatterns rest m

/-- Embedding of `categorize_merchant`: normalize, exact lookup (the
`if cat:` truthiness test lets an empty mapped category fall through to
the patterns), then the pattern loop. -/
def categorize_merchant (merchant : String) (rules : Rules) : Option String :=
  let m := normalize_merchant merchant
  match lookupAssoc rules.merchants m with
  | some c => if c = "" then scanPatterns rules.patterns m else some c
  | none => scanPatterns rules.patterns m

/-- Embedding of the `patterns` part of `load_rules`:
`PatternRule.from_dict` calls `re.compile(rx)` unguarded, so one bad
stored pattern raises `re.error` out of `load_rules`. -/
def load_rules_patterns : List (String × String) → Except String (List PatternRule)
  | [] => .ok []
  | e :: rest =>
    match compileRe e.1 with
    | some r =>
      match load_rules_patterns rest with
      | .ok prs => .ok (⟨e.1, e.2, r⟩ :: prs)
      | .error msg => .error msg
    | none => .error "re.error: invalid stored pattern"

example : normalize_merchant "  STARBUCKS   COFFEE  " = "STARBUCKS COFFEE" := by decide
example :
    categorize_merchant "X" ⟨1, [("X", "")], [⟨"X", "Y", rlit "X"⟩]⟩ = some "Y" := by decide
example :
    categorize_merchant "COFFEE SHOP" ⟨1, [], [⟨"coffee", "Food", rlit "coffee"⟩]⟩ = none := by decide
example :
    load_rules_patterns [("(", "Coffee")] = .error "re.error: invalid stored pattern" := rfl

/-! ### Interactive session pattern scan (`categorize.py`) -/

/-- One entry of the session rule file's `patterns` list (both keys may
be missing in the stored JSON). -/
structure SessionRule where
  pattern : Option String
  canonical : Option String
deriving Repr

/-- Embedding of the pattern scan inside the session's `cmd_categorize`:
entries without a pattern are skipped, a pattern that fails to compile
(`re.error`) is skipped, matching is `re.search` with `re.IGNORECASE`,
and the suggested canonical is the entry's (or the raw description when
the entry has none / an empty one). -/
def suggestCanonical (patterns : List SessionRule) (raw : String) : Option String :=
  match patterns with
  | [] => none
  | r :: rest =>
    match r.pattern with
    | none => suggestCanonical rest raw
    | some p =>
      if p = "" then suggestCanonical rest raw
      else
        match compileRe p with
        | none => suggestCanonical rest raw
        | some rx =>
          if Regex.search true rx raw then
            some (match r.canonical with
                  | some c => if c = "" then raw else c
                  | none => raw)
          else suggestCanonical rest raw

example :
    suggestCanonical [⟨some "(", some "BAD"⟩, ⟨some "coffee", some "Coffee Shop"⟩]
      "STARBUCKS COFFEE #123" = some "Coffee Shop" := by decide

/-! ### Rule-based categorize command (`commands/categorize.py`) -/

/-- One CSV row as the categorize command sees it: the `Merchant` and
`Category` fields plus the remaining (untouched) fields. -/
structure MRow where
  merchant : String
  category : String
  rest : List (String × String)
deriving DecidableEq, Repr

/-- Embedding of the per-row body of the command's `cmd_categorize`
loop: a row whose stripped `Category` is non-empty is written through
unchanged; otherwise the engine result (`or "Uncategorized"`, then
forced to `"Uncategorized"` when not a known category) is filled in. -/
def processRow (categories : List String) (rules : Rules) (row : MRow) : MRow :=
  if sTrim row.category ≠ "" then row
  else
    let cat0 :=
      match categorize_merchant row.merchant rules with
      | some c => if c = "" then "Uncategorized" else c
      | none => "Uncategorized"
    let cat := if categories.contains cat0 then cat0 else "Uncategorized"
    { row with category := cat }

example :
    processRow [] ⟨1, [], []⟩ ⟨"ZZZ", " ", []⟩ = ⟨"ZZZ", "Uncategorized", []⟩ := by decide
example :
    processRow [] ⟨1, [], []⟩ ⟨"ZZZ", "Food", [("Date", "01/01")]⟩ =
      ⟨"ZZZ", "Food", [("Date", "01/01")]⟩ := by decide

/-! ### Line row extractor (`LINE_TXN_RE`, `_extract_transactions_from_lines`)

`LINE_TXN_RE` is embedded as a specialized backtracking matcher: each
sub-pattern produces its list of possible remainders in the engine's
preference order (greedy pieces longest-first, the lazy description
shortest-first, optional groups attempt-first), and the overall
anchored match is the first complete alternative in that order — which
is exactly the backtracking order of the anchored Python pattern. -/

/-- First success over a list of alternatives, in order. -/
def firstSome {α β : Type} (l : List α) (f : α → Option β) : Option β :=
  match l with
  | [] => none
  | x :: xs =>
    match f x with
    | some b => some b
    | none => firstSome xs f

/-- Remainders after a greedy digit run `\d{lo,hi}`, longest first. -/
def digitRunRests (lo hi : Nat) (s : List Char) : List (List Char) :=
  let run := (s.takeWhile isDigitB).length
  let top := min hi run
  ((List.range (top + 1)).reverse.filter (fun k => lo ≤ k)).map (fun k => s.drop k)

/-- Remainder after one literal character. -/
def litRests (c : Char) (s : List Char) : List (List Char) :=
  match s with
  | c' :: cs => if c' = c then [cs] else []
  | [] => []

/-- Remainders after an optional character (greedy: consume first). -/
def optCharRests (c : Char) (s : List Char) : List (List Char) :=
  (match s with
   | c' :: cs => if c' = c then [cs] else []
   | [] => []) ++ [s]

/-- Remainders after greedy whitespace `\s+` (or `\s*` with
`req = false`), longest first. -/
def wsRests (req : Bool) (s : List Char) : List (List Char) :=
  let run := (s.takeWhile isSpaceB).length
  ((List.range (run + 1)).reverse.filter (fun k => (if req then 1 else 0) ≤ k)).map
    (fun k => s.drop k)

/-- Remainders after a date `\d{1,2}/\d{1,2}/\d{2,4}`, in backtracking
order. -/
def dateRests (s : List Char) : List (List Char) :=
  (digitRunRests 1 2 s).flatMap fun s1 =>
  (litRests '/' s1).flatMap fun s2 =>
  (digitRunRests 1 2 s2).flatMap fun s3 =>
  (litRests '/' s3).flatMap fun s4 =>
  digitRunRests 2 4 s4

/-- Remainders after exactly `n` digits. -/
def exactDigitsRests (n : Nat) (s : List Char) : List (List Char) :=
  if (s.take n).length = n && (s.take n).all isDigitB then [s.drop n] else []

/-- Remainders after a greedy `[\d,]*` run, longest first. -/
def digitCommaStarRests (s : List Char) : List (List Char) :=
  let run := (s.takeWhile (fun c => isDigitB c || c = ',')).length
  ((List.range (run + 1)).reverse).map (fun k => s.drop k)

/-- Remainders after the amount/balance sub-pattern
`-?\(?\$?\d[\d,]*\.\d{2}\)?`, in backtracking order. -/
def moneyTokRests (s : List Char) : List (List Char) :=
  (optCharRests '-' s).flatMap fun s1 =>
  (optCharRests '(' s1).flatMap fun s2 =>
  (optCharRests '$' s2).flatMap fun s3 =>
  (match s3 with
   | c :: cs => if isDigitB c then [cs] else []
   | [] => []).flatMap fun s4 =>
  (digitCommaStarRests s4).flatMap fun s5 =>
  (litRests '.' s5).flatMap fun s6 =>
  (exactDigitsRests 2 s6).flatMap fun s7 =>
  optCharRests ')' s7

/-- Remainders after the lazy description `.*?` (no newline), shortest
first. -/
def descRests (s : List Char) : List (List Char) :=
  let m := (s.takeWhile (fun c => c ≠ '\n')).length
  (List.range (m + 1)).map (fun k => s.drop k)

/-- The characters consumed between a state and one of its remainder
suffixes. -/
def consumed (before after : List Char) : String :=
  ⟨before.take (before.length - after.length)⟩

/-- The optional post-date group `(?:(?P<post_date>date)\s+)?`, greedy:
matching alternatives first, then the skip alternative. -/
def postDateAlts (s : List Char) : List (String × List Char) :=
  ((dateRests s).flatMap fun s1 =>
    (wsRests true s1).map fun s2 => (consumed s s1, s2)) ++ [("", s)]

/-- The optional balance group `(?:\s+(?P<balance>money))?`, greedy. -/
def balanceAlts (s : List Char) : List (String × List Char) :=
  ((wsRests true s).flatMap fun s1 =>
    (moneyTokRests s1).map fun s2 => (consumed s1 s2, s2)) ++ [("", s)]

/-- Anchored match of `LINE_TXN_RE` against a whole line, returning the
captured groups `(tran_date, post_date, desc, amount, balance)`. -/
def lineTxnMatch (s : List Char) : Option (String × String × String × String × String) :=
  firstSome (wsRests false s) fun r0 =>
  firstSome (dateRests r0) fun r1 =>
  firstSome (wsRests true r1) fun r2 =>
  firstSome (postDateAlts r2) fun pd =>
  firstSome (descRests pd.2) fun r5 =>
  firstSome (wsRests true r5) fun r6 =>
  firstSome (moneyTokRests r6) fun r7 =>
  firstSome (balanceAlts r7) fun bal =>
  if bal.2.all isSpaceB then
    some (consumed r0 r1, pd.1, consumed pd.2 r5, consumed r6 r7, bal.1)
  else none

/-- Embedding of `_extract_transactions_from_lines`. -/
def extract_transactions_from_lines (lines : List String) : List (List String) :=
  lines.filterMap fun line =>
    let s := sTrim line
    if s.data = [] then none
    else
      match lineTxnMatch s.data with
      | none => none
      | some g =>
        let amount_str := sTrim g.2.2.2.1
        match parse_money amount_str with
        | none => none
        | some a =>
          let balance_str := sTrim g.2.2.2.2
          let balance_norm :=
            if balance_str = "" then ""
            else
              match parse_money balance_str with
              | some b => fmt2 b
              | none => ""
          some [g.1, g.2.1, sTrim g.2.2.1, fmt2 a, balance_norm, s]

example :
    extract_transactions_from_lines ["03/01/24 COFFEE SHOP 4.50"] =
      [["03/01/24", "", "COFFEE SHOP", "4.50", "", "03/01/24 COFFEE SHOP 4.50"]] := by
  decide

example :
    extract_transactions_from_lines ["  03/01/24 03/02/24 STORE -12.34 1,000.00  "] =
      [["03/01/24", "03/02/24", "STORE", "-12.34", "1000.00",
        "03/01/24 03/02/24 STORE -12.34 1,000.00"]] := by
  decide

example : extract_transactions_from_lines ["Beginning balance", "", "TOTAL 123"] = [] := by
  decide

/-! ### Extraction orchestrator (`extract_activity`)

The pdfplumber collaborator is abstracted as the decode outcome the
orchestrator reacts to: the import can fail (`ImportError`), opening or
reading the document can raise, and otherwise each page yields a table
extraction result and a text extraction result, each of which can
itself raise (caught per page) or come back empty. -/

/-- One decoded page: the outcome of `page.extract_tables()` and of
`page.extract_text()` (`Except.error` models a raised exception,
`none` a `None` text). -/
structure PageModel where
  tables : Except Unit (List (List (List (Option String))))
  text : Except Unit (Option String)

/-- Outcome of reaching the PDF library and opening the document. -/
inductive DecodeOutcome where
  | noLib
  | openFail
  | ok (pages : List PageModel)

/-- The fixed six-column CSV header. -/
def HEADER_ROW : List String :=
  ["transaction_date", "post_date", "description", "amount", "balance", "raw"]

/-- First pass: per page, tables whose extraction raised contribute
nothing (caught and logged); otherwise every non-empty table is run
through the table row extractor. -/
def tablePassTxns (pages : List PageModel) : List (List String) :=
  pages.flatMap fun p =>
    match p.tables with
    | .error _ => []
    | .ok ts =>
      ts.flatMap fun t =>
        if t = [] then [] else extract_transactions_from_table t

/-- Second pass, per page: `some txns` exactly when the line extractor
is invoked on this page's text (text extraction succeeded and the text
is non-empty); `none` when the page is skipped. -/
def pageLineTxns (p : PageModel) : Option (List (List String)) :=
  match p.text with
  | .error _ => none
  | .ok none => none
  | .ok (some t) =>
    if t = "" then none
    else some (extract_transactions_from_lines (splitLinesStr t))

/-- Whether the second pass reaches the line extractor on this page. -/
def textOk (p : PageModel) : Bool := (pageLineTxns p).isSome

/-- All transactions of the second pass. -/
def linePassTxns (pages : List PageModel) : List (List String) :=
  pages.flatMap fun p => (pageLineTxns p).getD []

/-- The page indices on which the second pass invokes the line
extractor (in order). -/
def lineInvocations (pages : List PageModel) : List Nat :=
  pages.enum.filterMap fun ip => if textOk ip.2 then some ip.1 else none

/-- The transaction rows the orchestrator writes below the header. -/
def pdfRows : DecodeOutcome → List (List String)
  | .noLib => []
  | .openFail => []
  | .ok pages =>
    let t := tablePassTxns pages
    if t = [] then linePassTxns pages else t

/-- Embedding of `extract_activity`: the returned path and the written
CSV (header row and data rows).  Decode problems degrade to the
header-only file at the same path. -/
def extract_activity (pdf_stem out_dir : String) (doc : DecodeOutcome) :
    String × List String × List (List String) :=
  (out_dir ++ "/" ++ pdf_stem ++ ".activity.csv", HEADER_ROW, pdfRows doc)

/-- The line-extractor invocations a run performs: none at all when the
tables produced transactions (or decoding failed), one per
text-bearing page otherwise. -/
def invocationLog : DecodeOutcome → List Nat
  | .noLib => []
  | .openFail => []
  | .ok pages => if tablePassTxns pages = [] then lineInvocations pages else []

example :
    extract_activity "stmt" "out" .noLib = ("out/stmt.activity.csv", HEADER_ROW, []) := rfl

example :
    invocationLog (.ok [⟨.ok [], .ok (some "03/01/24 COFFEE 4.50")⟩,
                        ⟨.ok [], .error ()⟩,
                        ⟨.ok [], .ok (some "x")⟩]) = [0, 2] := by decide

example :
    invocationLog (.ok [⟨.ok [[[some "03/01/24", some "A", some "4.50"]]], .ok (some "x")⟩]) = [] := by
  decide

/-! ### Helper lemmas -/

lemma startsWithL_nil (l : List Char) : startsWithL [] l = true := rfl

lemma dropWhile_eq_self_of_head {p : Char → Bool} {l : List Char}
    (h : ∀ c ∈ l, p c = false) : l.dropWhile p = l := by
  cases l with
  | nil => rfl
  | cons c cs => simp [List.dropWhile, h c (by simp)]

lemma sTrim_of_nonspace {l : List Char} (h : ∀ c ∈ l, isSpaceB c = false) :
    sTrim ⟨l⟩ = ⟨l⟩ := by
  unfold sTrim trimLeftL trimRightL
  rw [dropWhile_eq_self_of_head h,
    dropWhile_eq_self_of_head (fun c hc => h c (List.mem_reverse.mp hc)),
    List.reverse_reverse]

lemma isSpaceB_eq_false_of_digit_dot {c : Char} (h : (isDigitB c || c = '.') = true) :
    isSpaceB c = false := by
  by_contra hs
  rw [Bool.not_eq_false] at hs
  have h6 : c = ' ' ∨ c = '\t' ∨ c = '\n' ∨ c = '\r' ∨ c = '\x0b' ∨ c = '\x0c' := by
    simpa [isSpaceB, or_assoc] using hs
  rcases h6 with rfl | rfl | rfl | rfl | rfl | rfl <;> exact absurd h (by decide)

lemma ne_comma_of_digit_dot {c : Char} (h : (isDigitB c || c = '.') = true) :
    c ≠ ',' := by
  rintro rfl
  exact absurd h (by decide)

lemma removeCommas_eq_self {l : List Char} (h : ∀ c ∈ l, c ≠ ',') :
    removeCommas l = l := by
  unfold removeCommas
  exact List.filter_eq_self.mpr (fun c hc => decide_eq_true (h c hc))

lemma parse_money_of_match {s : String} (hne : (sTrim s).data ≠ [])
    (hm : moneyCoreMatch (cleanedMoney s) = true) :
    parse_money s =
      some (if parenFlag s then negMoney (valueOf (cleanedMoney s).data)
            else valueOf (cleanedMoney s).data) := by
  unfold parse_money
  simp [hne, hm]

lemma parse_money_empty : parse_money "" = none := rfl

/-! ### Claim C8 -/

/-- Claim C8: `parse_money` returns `-123.45` for `"(123.45)"`,
`1234.56` for `"$1,234.56"`, and `none` for `"abc"`; in general, when
the residual after stripping parentheses, a leading dollar sign and
grouping commas does not match `-?\d+(\.\d{2})?`, the result is `none`
(values are represented as a sign bit and cents, so `-123.45` is
`⟨true, 12345⟩`). -/
theorem c8_parse_money_spec :
    parse_money "(123.45)" = some ⟨true, 12345⟩
    ∧ parse_money "$1,234.56" = some ⟨false, 123456⟩
    ∧ parse_money "abc" = none
    ∧ ∀ s : String, moneyCoreMatch (cleanedMoney s) = false → parse_money s = none := by
  refine ⟨by decide, by decide, by decide, ?_⟩
  intro s h
  unfold parse_money
  by_cases he : (sTrim s).data = []
  · simp [he]
  · simp [he, h]

/-- Witness for C8: the general clause applied at the concrete residual
`"12.3"`, whose fraction has only one digit. -/
theorem c8_parse_money_spec_witness :
    moneyCoreMatch (cleanedMoney "12.3") = false ∧ parse_money "12.3" = none :=
  ⟨by decide, c8_parse_money_spec.2.2.2 "12.3" (by decide)⟩

/-! ### Claim C10 -/

lemma data_mk (l : List Char) : (String.mk l).data = l := rfl

lemma parse_money_neg_core (bd : List Char)
    (hns : ∀ c ∈ bd, isSpaceB c = false)
    (hnc : ∀ c ∈ bd, c ≠ ',')
    (hm : moneyCoreMatch ⟨'-' :: bd⟩ = true) :
    parse_money ⟨'-' :: bd⟩ = some ⟨true, centsOfBody bd⟩ := by
  have hns' : ∀ c ∈ ('-' :: bd), isSpaceB c = false := by
    intro c hc
    rcases List.mem_cons.mp hc with rfl | hc
    · decide
    · exact hns c hc
  have htrim : sTrim ⟨'-' :: bd⟩ = ⟨'-' :: bd⟩ := sTrim_of_nonspace hns'
  have hrc : removeCommas ('-' :: bd) = '-' :: bd := by
    refine removeCommas_eq_self ?_
    intro c hc
    rcases List.mem_cons.mp hc with rfl | hc
    · decide
    · exact hnc c hc
  have hclean : cleanedMoney ⟨'-' :: bd⟩ = ⟨'-' :: bd⟩ := by
    simp only [cleanedMoney, htrim, data_mk]
    simp [startsWithL, hrc]
  have hpf : parenFlag ⟨'-' :: bd⟩ = false := by
    simp only [parenFlag, htrim, data_mk]
    simp [startsWithL]
  rw [parse_money_of_match (by rw [htrim, data_mk]; simp) (by rw [hclean]; exact hm)]
  rw [hpf, hclean]
  simp [valueOf, startsWithL]

lemma parse_money_paren_neg_core (bd : List Char)
    (hns : ∀ c ∈ bd, isSpaceB c = false)
    (hnc : ∀ c ∈ bd, c ≠ ',')
    (hm : moneyCoreMatch ⟨'-' :: bd⟩ = true) :
    parse_money ⟨'(' :: '-' :: (bd ++ [')'])⟩ = some ⟨false, centsOfBody bd⟩ := by
  have hns' : ∀ c ∈ ('(' :: '-' :: (bd ++ [')'])), isSpaceB c = false := by
    intro c hc
    rcases List.mem_cons.mp hc with rfl | hc
    · decide
    rcases List.mem_cons.mp hc with rfl | hc
    · decide
    rcases List.mem_append.mp hc with hc | hc
    · exact hns c hc
    · simp at hc
      subst hc
      decide
  have htrim : sTrim ⟨'(' :: '-' :: (bd ++ [')'])⟩ = ⟨'(' :: '-' :: (bd ++ [')'])⟩ :=
    sTrim_of_nonspace hns'
  have hdl : (('-' :: (bd ++ [')'])).dropLast) = '-' :: bd := by
    have h : ('-' :: (bd ++ [')'])) = ('-' :: bd) ++ [')'] := by simp
    rw [h, List.dropLast_concat]
  have htrim2 : sTrim ⟨'-' :: bd⟩ = ⟨'-' :: bd⟩ := by
    refine sTrim_of_nonspace ?_
    intro c hc
    rcases List.mem_cons.mp hc with rfl | hc
    · decide
    · exact hns c hc
  have hrc : removeCommas ('-' :: bd) = '-' :: bd := by
    refine removeCommas_eq_self ?_
    intro c hc
    rcases List.mem_cons.mp hc with rfl | hc
    · decide
    · exact hnc c hc
  have hclean : cleanedMoney ⟨'(' :: '-' :: (bd ++ [')'])⟩ = ⟨'-' :: bd⟩ := by
    simp only [cleanedMoney, htrim, data_mk, endsWithL]
    simp only [List.reverse_cons, List.reverse_append, List.reverse_nil,
      List.nil_append, List.singleton_append, List.cons_append, List.append_assoc]
    simp only [startsWithL, startsWithL_nil]
    simp only [List.drop_one, List.tail_cons, hdl, htrim2, data_mk]
    simp [startsWithL, hrc]
  have hpf : parenFlag ⟨'(' :: '-' :: (bd ++ [')'])⟩ = true := by
    simp only [parenFlag, htrim, data_mk, endsWithL]
    simp only [List.reverse_cons, List.reverse_append, List.reverse_nil,
      List.nil_append, List.singleton_append, List.cons_append, List.append_assoc]
    simp [startsWithL]
  rw [parse_money_of_match (by rw [htrim, data_mk]; simp) (by rw [hclean]; exact hm)]
  rw [hpf, hclean]
  simp [valueOf, startsWithL, negMoney]

/-- Claim C10: a parenthesized token whose inner numeral carries its own
minus sign is accepted by `parse_money` and the two negations cancel:
`parse_money "(-123.45)"` is the positive `123.45` (sign bit `false`),
and in general `"(" ++ "-" ++ body ++ ")"` parses to the positive value
of the cents of `body` while `"-" ++ body` parses to the negative one. -/
theorem c10_paren_minus_cancels (body : String)
    (hall : body.data.all (fun c => isDigitB c || c = '.') = true)
    (hm : moneyCoreMatch ⟨'-' :: body.data⟩ = true) :
    parse_money "(-123.45)" = some ⟨false, 12345⟩
    ∧ parse_money ("-" ++ body) = some ⟨true, centsOfBody body.data⟩
    ∧ parse_money ("(-" ++ body ++ ")") = some ⟨false, centsOfBody body.data⟩ := by
  have hns : ∀ c ∈ body.data, isSpaceB c = false := fun c hc =>
    isSpaceB_eq_false_of_digit_dot (List.all_eq_true.mp hall c hc)
  have hnc : ∀ c ∈ body.data, c ≠ ',' := fun c hc =>
    ne_comma_of_digit_dot (List.all_eq_true.mp hall c hc)
  have heq1 : ("-" ++ body) = (⟨'-' :: body.data⟩ : String) := rfl
  have heq2 : ("(-" ++ body ++ ")") = (⟨'(' :: '-' :: (body.data ++ [')'])⟩ : String) := rfl
  refine ⟨by decide, ?_, ?_⟩
  · rw [heq1]
    exact parse_money_neg_core body.data hns hnc hm
  · rw [heq2]
    exact parse_money_paren_neg_core body.data hns hnc hm

/-- Witness for C10: the theorem applied at the body `"123.45"`. -/
theorem c10_paren_minus_cancels_witness :
    parse_money ("-" ++ "123.45") = some ⟨true, centsOfBody "123.45".data⟩
    ∧ parse_money ("(-" ++ "123.45" ++ ")") = some ⟨false, centsOfBody "123.45".data⟩ :=
  ⟨(c10_paren_minus_cancels "123.45" (by decide) (by decide)).2.1,
   (c10_paren_minus_cancels "123.45" (by decide) (by decide)).2.2⟩

/-! ### Claim C2 -/

/-- Claim C2 (counterexample): on the single table row
`["03/01/24", "DESCRIPTION TEXT", "45.00", "1,200.00"]` the produced
record's amount is `"1200.00"` (the parse of the last money-like cell
`"1,200.00"`) and its balance is `"45.00"` — not amount `"45.00"` and
balance `"1200.00"` as the claim states. -/
theorem c2_counterexample :
    extract_transactions_from_table
      [[some "03/01/24", some "DESCRIPTION TEXT", some "45.00", some "1,200.00"]] =
      [["03/01/24", "", "DESCRIPTION TEXT", "1200.00", "45.00",
        "03/01/24 | DESCRIPTION TEXT | 45.00 | 1,200.00"]]
    ∧ ("1200.00" : String) ≠ "45.00"
    ∧ ("45.00" : String) ≠ "1200.00" := by
  exact ⟨by decide, by decide, by decide⟩

/-- Claim C2 (amended): the single table row
`["03/01/24", "DESCRIPTION TEXT", "45.00", "1,200.00"]` yields exactly
one record, with `amount = "1200.00"`, `balance = "45.00"` and
`description = "DESCRIPTION TEXT"`. -/
theorem c2_single_row_extraction :
    extract_transactions_from_table
      [[some "03/01/24", some "DESCRIPTION TEXT", some "45.00", some "1,200.00"]] =
      [["03/01/24", "", "DESCRIPTION TEXT", "1200.00", "45.00",
        "03/01/24 | DESCRIPTION TEXT | 45.00 | 1,200.00"]] := by
  decide

/-! ### Claim C4 -/

/-- Claim C4: when the PDF library is unavailable or opening/reading the
document fails, `extract_activity` returns the path
`out_dir/pdf_stem.activity.csv` with a header-only CSV; and every call
returns that path with the fixed six-column header (schema-valid
output). -/
theorem c4_extract_activity_boundary (pdf_stem out_dir : String) (doc : DecodeOutcome)
    (h : doc = DecodeOutcome.noLib ∨ doc = DecodeOutcome.openFail) :
    extract_activity pdf_stem out_dir doc =
      (out_dir ++ "/" ++ pdf_stem ++ ".activity.csv", HEADER_ROW, [])
    ∧ ∀ d : DecodeOutcome,
        (extract_activity pdf_stem out_dir d).1 =
          out_dir ++ "/" ++ pdf_stem ++ ".activity.csv"
        ∧ (extract_activity pdf_stem out_dir d).2.1 = HEADER_ROW := by
  constructor
  · rcases h with rfl | rfl <;> rfl
  · intro d
    exact ⟨rfl, rfl⟩

/-- Witness for C4: the theorem applied at the concrete document whose
library import fails. -/
theorem c4_extract_activity_boundary_witness :
    extract_activity "stmt" "out" DecodeOutcome.noLib =
      ("out/stmt.activity.csv", HEADER_ROW, []) :=
  (c4_extract_activity_boundary "stmt" "out" DecodeOutcome.noLib (Or.inl rfl)).1

/-! ### Claim C6 -/

lemma suggestCanonical_skip_bad (pre post : List SessionRule) (raw p : String)
    (canon : Option String) (hbad : compileRe p = none) :
    suggestCanonical (pre ++ ⟨some p, canon⟩ :: post) raw =
      suggestCanonical (pre ++ post) raw := by
  have hp : p ≠ "" := by
    rintro rfl
    exact absurd hbad (by decide)
  induction pre with
  | nil =>
    simp only [List.nil_append]
    conv_lhs => rw [suggestCanonical]
    simp [hp, hbad]
  | cons r rest ih =>
    simp only [List.cons_append]
    unfold suggestCanonical
    cases hr : r.pattern with
    | none => exact ih
    | some q =>
      by_cases hq : q = ""
      · simp only [hq, if_pos rfl]
        exact ih
      · simp only [if_neg hq]
        cases hc : compileRe q with
        | none => exact ih
        | some rx =>
          by_cases hs : Regex.search true rx raw
          · simp [hs]
          · simp [hs, ih]

/-- Claim C6 (code evaluation): a stored pattern that does not compile is
skipped at match time by the session's pattern scan — the scan over
`pre ++ [bad] ++ post` equals the scan over `pre ++ post`, leaving the
pattern list untouched — but the engine path compiles stored patterns
unguarded in `load_rules`, so the same bad pattern aborts rule loading
(and with it categorization) with `re.error`. -/
theorem c6_bad_stored_pattern (pre post : List SessionRule) (raw p : String)
    (canon : Option String) (hbad : compileRe p = none) :
    suggestCanonical (pre ++ ⟨some p, canon⟩ :: post) raw =
      suggestCanonical (pre ++ post) raw
    ∧ ∀ cat : String,
        load_rules_patterns [(p, cat)] = .error "re.error: invalid stored pattern" := by
  refine ⟨suggestCanonical_skip_bad pre post raw p canon hbad, ?_⟩
  intro cat
  unfold load_rules_patterns
  simp [hbad]

/-- Witness for C6: applied at the unterminated-group pattern `"("`,
which Python's `re.compile` rejects. -/
theorem c6_bad_stored_pattern_witness :
    compileRe "(" = none
    ∧ suggestCanonical
        [⟨some "(", some "BAD"⟩, ⟨some "coffee", some "Coffee Shop"⟩]
        "STARBUCKS COFFEE #123" =
        suggestCanonical [⟨some "coffee", some "Coffee Shop"⟩] "STARBUCKS COFFEE #123"
    ∧ suggestCanonical [⟨some "coffee", some "Coffee Shop"⟩] "STARBUCKS COFFEE #123" =
        some "Coffee Shop"
    ∧ load_rules_patterns [("(", "Coffee")] = .error "re.error: invalid stored pattern" :=
  ⟨by decide,
   (c6_bad_stored_pattern [] [⟨some "coffee", some "Coffee Shop"⟩]
      "STARBUCKS COFFEE #123" "(" (some "BAD") (by decide)).1,
   by decide,
   (c6_bad_stored_pattern [] [⟨some "coffee", some "Coffee Shop"⟩]
      "STARBUCKS COFFEE #123" "(" (some "BAD") (by decide)).2 "Coffee"⟩

/-! ### Claim C7 -/

lemma processRow_id_of_categorized (categories : List String) (rules : Rules)
    (r : MRow) (h : sTrim r.category ≠ "") :
    processRow categories rules r = r := by
  unfold processRow
  simp [h]

/-- Claim C7 (amended): re-running rule-based categorization leaves every
row unchanged whose `Category` is non-blank — non-empty after trimming
whitespace (the code tests the stripped value) — so a fully categorized
CSV is passed through row-for-row unchanged. -/
theorem c7_idempotent_on_categorized (categories : List String) (rules : Rules)
    (rows : List MRow) (h : ∀ r ∈ rows, sTrim r.category ≠ "") :
    rows.map (processRow categories rules) = rows := by
  induction rows with
  | nil => rfl
  | cons r rest ih =>
    simp only [List.map_cons]
    rw [processRow_id_of_categorized categories rules r (h r (by simp)),
      ih (fun x hx => h x (by simp [hx]))]

/-- Claim C7 (counterexample): a row whose `Category` value is the
non-empty string `" "` is not passed through byte-identically — the code
strips it, finds it blank, and overwrites it with `"Uncategorized"`. -/
theorem c7_counterexample :
    (" " : String) ≠ ""
    ∧ [(⟨"ZZZ", " ", []⟩ : MRow)].map (processRow [] ⟨1, [], []⟩) =
        [⟨"ZZZ", "Uncategorized", []⟩]
    ∧ ((⟨"ZZZ", "Uncategorized", []⟩ : MRow) ≠ ⟨"ZZZ", " ", []⟩) := by
  exact ⟨by decide, by decide, by decide⟩

/-- Witness for C7: the theorem applied to a concrete two-row
already-categorized file. -/
theorem c7_idempotent_on_categorized_witness :
    [(⟨"AMAZON", "Shopping", []⟩ : MRow), ⟨"UBER", "Transport", [("Date", "01/02")]⟩].map
      (processRow ["Shopping"] ⟨1, [], []⟩) =
      [⟨"AMAZON", "Shopping", []⟩, ⟨"UBER", "Transport", [("Date", "01/02")]⟩] :=
  c7_idempotent_on_categorized ["Shopping"] ⟨1, [], []⟩ _ (by decide)

/-! ### Claim C9 -/

/-- Claim C9: the line `"03/01/24 COFFEE SHOP 4.50"` yields exactly one
record with `transaction_date = "03/01/24"`, `post_date = ""`,
`description = "COFFEE SHOP"`, `amount = "4.50"`, `balance = ""`; and
any line whose stripped text does not match the anchored transaction
pattern is silently skipped and yields no record. -/
theorem c9_line_fallback (line : String)
    (h : lineTxnMatch (sTrim line).data = none) :
    extract_transactions_from_lines ["03/01/24 COFFEE SHOP 4.50"] =
      [["03/01/24", "", "COFFEE SHOP", "4.50", "", "03/01/24 COFFEE SHOP 4.50"]]
    ∧ extract_transactions_from_lines [line] = [] := by
  constructor
  · decide
  · unfold extract_transactions_from_lines
    simp only [List.filterMap_cons, List.filterMap_nil]
    by_cases he : (sTrim line).data = []
    · simp [he]
    · simp [he, h]

/-- Witness for C9: the theorem applied at the non-transaction line
`"Beginning balance 1,000.00 minimum"` (no leading date). -/
theorem c9_line_fallback_witness :
    lineTxnMatch (sTrim "Beginning balance 1,000.00 minimum").data = none
    ∧ extract_transactions_from_lines ["Beginning balance 1,000.00 minimum"] = [] :=
  ⟨by decide,
   (c9_line_fallback "Beginning balance 1,000.00 minimum" (by decide)).2⟩

/-! ### Claim C3 -/

lemma wordsAux_nil_eq (acc : List Char) :
    wordsAux [] acc = if acc = [] then [] else [⟨acc.reverse⟩] := rfl

lemma wordsAux_cons_nonspace {c : Char} (cs acc : List Char) (hc : isSpaceB c = false) :
    wordsAux (c :: cs) acc = wordsAux cs (c :: acc) := by
  conv_lhs => rw [wordsAux.eq_def]
  simp [hc]

lemma wordsAux_cons_space_nil {c : Char} (cs : List Char) (hc : isSpaceB c = true) :
    wordsAux (c :: cs) [] = wordsAux cs [] := by
  conv_lhs => rw [wordsAux.eq_def]
  simp [hc]

lemma wordsAux_cons_space {c : Char} (cs acc : List Char) (hc : isSpaceB c = true)
    (ha : acc ≠ []) :
    wordsAux (c :: cs) acc = ⟨acc.reverse⟩ :: wordsAux cs [] := by
  conv_lhs => rw [wordsAux.eq_def]
  simp [hc, ha]

lemma wordsAux_append_word (w : List Char) (hw : ∀ c ∈ w, isSpaceB c = false) :
    ∀ (l acc : List Char), wordsAux (w ++ l) acc = wordsAux l (w.reverse ++ acc) := by
  induction w with
  | nil => intro l acc; simp
  | cons c cs ih =>
    intro l acc
    have hc : isSpaceB c = false := hw c (by simp)
    rw [List.cons_append, wordsAux_cons_nonspace (cs ++ l) acc hc,
      ih (fun x hx => hw x (by simp [hx])) l (c :: acc)]
    simp [List.reverse_cons, List.append_assoc]

lemma wordsAux_all_ok :
    ∀ (l acc : List Char), (∀ c ∈ acc, isSpaceB c = false) →
      ∀ w ∈ wordsAux l acc, w.data ≠ [] ∧ ∀ c ∈ w.data, isSpaceB c = false := by
  intro l
  induction l with
  | nil =>
    intro acc hacc w hw
    by_cases ha : acc = []
    · subst ha
      simp [wordsAux_nil_eq] at hw
    · rw [wordsAux_nil_eq, if_neg ha] at hw
      rw [List.mem_singleton] at hw
      subst hw
      refine ⟨by simpa [List.reverse_eq_nil_iff] using ha, ?_⟩
      intro c hc
      exact hacc c (List.mem_reverse.mp hc)
  | cons c cs ih =>
    intro acc hacc w hw
    by_cases hc : isSpaceB c = true
    · by_cases ha : acc = []
      · subst ha
        rw [wordsAux_cons_space_nil cs hc] at hw
        exact ih [] (by simp) w hw
      · rw [wordsAux_cons_space cs acc hc ha] at hw
        rcases List.mem_cons.mp hw with rfl | hw
        · refine ⟨by simpa [List.reverse_eq_nil_iff] using ha, ?_⟩
          intro x hx
          exact hacc x (List.mem_reverse.mp hx)
        · exact ih [] (by simp) w hw
    · rw [Bool.not_eq_true] at hc
      rw [wordsAux_cons_nonspace cs acc hc] at hw
      refine ih (c :: acc) ?_ w hw
      intro x hx
      rcases List.mem_cons.mp hx with rfl | hx
      · exact hc
      · exact hacc x hx

lemma wordsAux_join (ws : List String)
    (h : ∀ w ∈ ws, w.data ≠ [] ∧ ∀ c ∈ w.data, isSpaceB c = false) :
    wordsAux (joinWith " " ws).data [] = ws := by
  induction ws with
  | nil => rfl
  | cons w rest ih =>
    rcases h w (by simp) with ⟨hne, hw⟩
    cases rest with
    | nil =>
      show wordsAux w.data [] = [w]
      have h1 : wordsAux (w.data ++ []) [] = wordsAux [] (w.data.reverse ++ []) :=
        wordsAux_append_word w.data hw [] []
      rw [List.append_nil, List.append_nil] at h1
      rw [h1, wordsAux_nil_eq,
        if_neg (by simpa [List.reverse_eq_nil_iff] using hne)]
      simp
    | cons w2 rest2 =>
      have hdata : (joinWith " " (w :: w2 :: rest2)).data =
          w.data ++ (' ' :: (joinWith " " (w2 :: rest2)).data) := by
        show (w ++ " " ++ joinWith " " (w2 :: rest2)).data = _
        rw [String.data_append, String.data_append]
        simp
      rw [hdata, wordsAux_append_word w.data hw _ [], List.append_nil,
        wordsAux_cons_space _ _ (by decide)
          (by simpa [List.reverse_eq_nil_iff] using hne),
        List.reverse_reverse, ih (fun x hx => h x (by simp [hx]))]

lemma normalize_merchant_idem (s : String) :
    normalize_merchant (normalize_merchant s) = normalize_merchant s := by
  unfold normalize_merchant
  exact congrArg (joinWith " ") (wordsAux_join _ (wordsAux_all_ok s.data [] (by simp)))

lemma scanPatterns_eq_find (ps : List PatternRule) (m : String) :
    scanPatterns ps m =
      (ps.find? fun pr => Regex.search false pr.compiled m).map fun pr => pr.category := by
  induction ps with
  | nil => rfl
  | cons pr rest ih =>
    by_cases h : Regex.search false pr.compiled m = true
    · simp [scanPatterns, List.find?, h]
    · simp only [Bool.not_eq_true] at h
      simp [scanPatterns, List.find?, h, ih]

/-- Claim C3 (amended): `categorize_merchant` normalizes its argument
(trim, collapse whitespace runs); a normalized merchant mapped to a
NON-EMPTY category in the exact map returns that category immediately,
taking precedence over any pattern; otherwise (no entry, or an entry
with an empty category, which the `if cat:` truthiness test lets fall
through) the patterns are scanned in declared order CASE-SENSITIVELY
(`re.compile` is called without flags) and the first whose search
succeeds gives its category; when nothing matches the result is none.
The result depends only on the normalized merchant. -/
theorem c3_categorize_merchant_amended :
    (∀ (m : String) (rules : Rules) (c : String),
        lookupAssoc rules.merchants (normalize_merchant m) = some c → c ≠ "" →
        categorize_merchant m rules = some c)
    ∧ (∀ (m : String) (rules : Rules),
        lookupAssoc rules.merchants (normalize_merchant m) = none →
        categorize_merchant m rules =
          (rules.patterns.find? fun pr =>
            Regex.search false pr.compiled (normalize_merchant m)).map
            fun pr => pr.category)
    ∧ (∀ (m : String) (rules : Rules),
        lookupAssoc rules.merchants (normalize_merchant m) = some "" →
        categorize_merchant m rules =
          (rules.patterns.find? fun pr =>
            Regex.search false pr.compiled (normalize_merchant m)).map
            fun pr => pr.category)
    ∧ (∀ (m : String) (rules : Rules),
        categorize_merchant m rules = categorize_merchant (normalize_merchant m) rules) := by
  refine ⟨?_, ?_, ?_, ?_⟩
  · intro m rules c hl hc
    unfold categorize_merchant
    simp [hl, hc]
  · intro m rules hl
    unfold categorize_merchant
    simp [hl, scanPatterns_eq_find]
  · intro m rules hl
    unfold categorize_merchant
    simp [hl, scanPatterns_eq_find]
  · intro m rules
    unfold categorize_merchant
    rw [normalize_merchant_idem]

/-- Witness for C3: the amended exact-precedence clause applied at a
concrete merchant with surrounding and internal extra whitespace. -/
theorem c3_categorize_merchant_amended_witness :
    lookupAssoc [("STARBUCKS COFFEE", "Coffee")]
      (normalize_merchant " STARBUCKS   COFFEE ") = some "Coffee"
    ∧ categorize_merchant " STARBUCKS   COFFEE "
        ⟨1, [("STARBUCKS COFFEE", "Coffee")], [⟨"S", "Other", rlit "S"⟩]⟩ = some "Coffee" :=
  ⟨by decide,
   c3_categorize_merchant_amended.1 " STARBUCKS   COFFEE "
     ⟨1, [("STARBUCKS COFFEE", "Coffee")], [⟨"S", "Other", rlit "S"⟩]⟩ "Coffee"
     (by decide) (by decide)⟩

/-- Claim C3 (counterexample): an exact entry with an EMPTY category is
not returned — the scan falls through to the patterns (`"X"` maps to
`""` yet the pattern result `"Y"` is returned); and pattern search is
case-SENSITIVE, not case-insensitive as claimed: the pattern
`"coffee"` (whose compilation is the literal regex) does not categorize
`"COFFEE SHOP"` although a case-insensitive search would succeed. -/
theorem c3_counterexample :
    categorize_merchant "X" ⟨1, [("X", "")], [⟨"X", "Y", rlit "X"⟩]⟩ = some "Y"
    ∧ lookupAssoc [("X", "")] (normalize_merchant "X") = some ""
    ∧ ("Y" : String) ≠ ""
    ∧ categorize_merchant "COFFEE SHOP" ⟨1, [], [⟨"coffee", "Food", rlit "coffee"⟩]⟩ = none
    ∧ Regex.search true (rlit "coffee") (normalize_merchant "COFFEE SHOP") = true
    ∧ compileRe "coffee" = some (rlit "coffee") := by
  exact ⟨by decide, by decide, by decide, by decide, by decide, by decide⟩

/-! ### Claim C5 -/

lemma mem_enumFrom_filterMap_ge (pages : List PageModel) :
    ∀ k i, i ∈ (List.enumFrom k pages).filterMap
        (fun ip => if textOk ip.2 then some ip.1 else none) → k ≤ i := by
  induction pages with
  | nil => intro k i h; simp at h
  | cons p ps ih =>
    intro k i h
    simp only [List.enumFrom, List.filterMap_cons] at h
    by_cases hp : textOk p = true
    · simp only [hp, if_pos rfl] at h
      rcases List.mem_cons.mp h with rfl | h
      · exact Nat.le_refl i
      · exact Nat.le_of_succ_le (ih (k + 1) i h)
    · rw [Bool.not_eq_true] at hp
      simp only [hp] at h
      exact Nat.le_of_succ_le (ih (k + 1) i h)

lemma enumFrom_filterMap_pairwise (pages : List PageModel) :
    ∀ k, ((List.enumFrom k pages).filterMap
        (fun ip => if textOk ip.2 then some ip.1 else none)).Pairwise (· < ·) := by
  induction pages with
  | nil => intro k; simp
  | cons p ps ih =>
    intro k
    simp only [List.enumFrom, List.filterMap_cons]
    by_cases hp : textOk p = true
    · simp only [hp, if_pos rfl]
      refine List.Pairwise.cons ?_ (ih (k + 1))
      intro i hi
      exact Nat.lt_of_succ_le (mem_enumFrom_filterMap_ge ps (k + 1) i hi)
    · rw [Bool.not_eq_true] at hp
      simp only [hp]
      exact ih (k + 1)

lemma enumFrom_filterMap_all_ok (pages : List PageModel) :
    ∀ k, (∀ p ∈ pages, textOk p = true) →
      (List.enumFrom k pages).filterMap
        (fun ip => if textOk ip.2 then some ip.1 else none) =
        List.range' k pages.length := by
  induction pages with
  | nil => intro k _; rfl
  | cons p ps ih =>
    intro k hall
    have hp : textOk p = true := hall p (by simp)
    simp only [List.enumFrom, List.filterMap_cons, hp, if_pos rfl, List.length_cons]
    rw [ih (k + 1) (fun x hx => hall x (by simp [hx]))]
    rfl

/-- Claim C5: the line-based pass is never invoked when the table pass
produced any transaction (`invocationLog = []`); when the table pass
produced none, the line extractor runs exactly once per page whose text
it can reach — for a document all of whose pages have readable,
non-empty text this is exactly once per page, `List.range` of the page
count — and never twice for a page (the log is strictly increasing). -/
theorem c5_line_pass_invocation (pages : List PageModel) :
    (tablePassTxns pages ≠ [] → invocationLog (DecodeOutcome.ok pages) = [])
    ∧ (tablePassTxns pages = [] →
        invocationLog (DecodeOutcome.ok pages) = lineInvocations pages)
    ∧ (tablePassTxns pages = [] → (∀ p ∈ pages, textOk p = true) →
        invocationLog (DecodeOutcome.ok pages) = List.range pages.length)
    ∧ (invocationLog (DecodeOutcome.ok pages)).Pairwise (· < ·) := by
  refine ⟨?_, ?_, ?_, ?_⟩
  · intro h
    simp [invocationLog, h]
  · intro h
    simp [invocationLog, h]
  · intro h hall
    simp only [invocationLog, h, if_pos rfl]
    show (List.enumFrom 0 pages).filterMap _ = _
    rw [enumFrom_filterMap_all_ok pages 0 hall, List.range_eq_range']
  · by_cases h : tablePassTxns pages = []
    · simp only [invocationLog, h, if_pos rfl]
      exact enumFrom_filterMap_pairwise pages 0
    · simp [invocationLog, h]

/-! ### Claim C1 -/

lemma mem_moneyIndicesFrom_ge :
    ∀ (l : List String) (k i : Nat), i ∈ moneyIndicesFrom k l → k ≤ i := by
  intro l
  induction l with
  | nil => intro k i h; simp [moneyIndicesFrom] at h
  | cons c cs ih =>
    intro k i h
    simp only [moneyIndicesFrom] at h
    by_cases hc : looks_like_money c = true
    · rw [if_pos hc] at h
      rcases List.mem_cons.mp h with rfl | h
      · exact Nat.le_refl _
      · exact Nat.le_of_succ_le (ih (k + 1) i h)
    · rw [if_neg hc] at h
      exact Nat.le_of_succ_le (ih (k + 1) i h)

lemma moneyIndicesFrom_pairwise :
    ∀ (l : List String) (k : Nat), (moneyIndicesFrom k l).Pairwise (· < ·) := by
  intro l
  induction l with
  | nil => intro k; simp [moneyIndicesFrom]
  | cons c cs ih =>
    intro k
    simp only [moneyIndicesFrom]
    by_cases hc : looks_like_money c = true
    · rw [if_pos hc]
      refine List.Pairwise.cons ?_ (ih (k + 1))
      intro i hi
      exact Nat.lt_of_succ_le (mem_moneyIndicesFrom_ge cs (k + 1) i hi)
    · rw [if_neg hc]
      exact ih (k + 1)

lemma map_getD_moneyIndicesFrom :
    ∀ (l : List String) (k : Nat),
      (moneyIndicesFrom k l).map (fun i => l.getD (i - k) "") = moneyCells l := by
  intro l
  induction l with
  | nil => intro k; rfl
  | cons c cs ih =>
    intro k
    have hmap : (moneyIndicesFrom (k + 1) cs).map (fun i => (c :: cs).getD (i - k) "") =
        (moneyIndicesFrom (k + 1) cs).map (fun i => cs.getD (i - (k + 1)) "") := by
      refine List.map_congr_left ?_
      intro i hi
      have hk : k + 1 ≤ i := mem_moneyIndicesFrom_ge cs (k + 1) i hi
      have hsub : i - k = (i - (k + 1)) + 1 := by omega
      rw [hsub, List.getD_cons_succ]
    simp only [moneyIndicesFrom]
    by_cases hc : looks_like_money c = true
    · rw [if_pos hc]
      simp only [List.map_cons, Nat.sub_self, List.getD_cons_zero]
      rw [hmap, ih (k + 1)]
      simp [moneyCells, List.filter_cons, hc]
    · rw [if_neg hc]
      rw [hmap, ih (k + 1)]
      simp only [Bool.not_eq_true] at hc
      simp [moneyCells, List.filter_cons, hc]

lemma map_getD_moneyIndices (l : List String) :
    (moneyIndicesFrom 0 l).map (fun i => l.getD i "") = moneyCells l := by
  have h := map_getD_moneyIndicesFrom l 0
  simpa using h

lemma pairwise_lt_penult_last :
    ∀ (l : List Nat), l.Pairwise (· < ·) → ∀ bi li,
      l.dropLast.getLast? = some bi → l.getLast? = some li → bi < li := by
  intro l
  induction l with
  | nil => intro _ bi li hb _; simp at hb
  | cons a t ih =>
    intro hp bi li hb hl
    cases t with
    | nil => simp at hb
    | cons b t2 =>
      cases t2 with
      | nil =>
        have hba : bi = a := by
          have : ([a, b] : List Nat).dropLast = [a] := rfl
          rw [this] at hb
          simpa using hb.symm
        have hlb : li = b := by simpa using hl.symm
        subst hba
        subst hlb
        exact (List.pairwise_cons.mp hp).1 li (by simp)
      | cons d t3 =>
        have hb' : (b :: d :: t3).dropLast.getLast? = some bi := by
          have h1 : (a :: b :: d :: t3).dropLast = a :: (b :: d :: t3).dropLast := rfl
          rw [h1] at hb
          have h2 : (b :: d :: t3).dropLast = b :: (d :: t3).dropLast := rfl
          rw [h2] at hb ⊢
          rw [List.getLast?_cons_cons] at hb
          exact hb
        have hl' : (b :: d :: t3).getLast? = some li := by
          rw [List.getLast?_cons_cons] at hl
          exact hl
        exact ih (List.pairwise_cons.mp hp).2 bi li hb' hl'

lemma rowToTxn_eq_none (h0 : Option String) (t : List (Option String))
    (hdr : headerLike (clean_cell h0 :: t.map clean_cell) = false)
    (hdate : looks_like_date (clean_cell h0) = true)
    (hamt : parse_money (amountStrOf (clean_cell h0 :: t.map clean_cell)
      (moneyIndicesFrom 0 (clean_cell h0 :: t.map clean_cell))) = none) :
    rowToTxn (h0 :: t) = none := by
  conv_lhs => rw [rowToTxn.eq_def]
  simp [hdr, hdate, hamt]

lemma rowToTxn_eq_some (h0 : Option String) (t : List (Option String)) (a : Money)
    (hdr : headerLike (clean_cell h0 :: t.map clean_cell) = false)
    (hdate : looks_like_date (clean_cell h0) = true)
    (hamt : parse_money (amountStrOf (clean_cell h0 :: t.map clean_cell)
      (moneyIndicesFrom 0 (clean_cell h0 :: t.map clean_cell))) = some a) :
    rowToTxn (h0 :: t) =
      some [clean_cell h0, (postDateOf (t.map clean_cell)).1,
        descriptionOf (clean_cell h0 :: t.map clean_cell) (postDateOf (t.map clean_cell)).2,
        fmt2 a,
        balanceNormOf (balanceStrOf (clean_cell h0 :: t.map clean_cell)
          (moneyIndicesFrom 0 (clean_cell h0 :: t.map clean_cell))),
        joinWith " | " (clean_cell h0 :: t.map clean_cell)] := by
  conv_lhs => rw [rowToTxn.eq_def]
  simp [hdr, hdate, hamt]

lemma extract_table_singleton (cells : List (Option String)) :
    extract_transactions_from_table [cells] =
      match rowToTxn cells with
      | none => []
      | some r => [r] := by
  simp only [extract_transactions_from_table, List.filterMap_cons, List.filterMap_nil]
  cases rowToTxn cells <;> rfl

lemma amountStrOf_eq (row : List String) (idxs : List Nat) (li : Nat)
    (h : idxs.getLast? = some li) : amountStrOf row idxs = row.getD li "" := by
  unfold amountStrOf
  rw [h]

lemma balanceStrOf_eq (row : List String) (idxs : List Nat) (bi li : Nat)
    (h2 : 2 ≤ idxs.length) (hbi : idxs.dropLast.getLast? = some bi)
    (hli : idxs.getLast? = some li) (hne : bi ≠ li) :
    balanceStrOf row idxs = row.getD bi "" := by
  unfold balanceStrOf
  rw [if_pos h2, hbi, hli]
  exact if_pos hne

lemma balanceStrOf_short (row : List String) (idxs : List Nat)
    (h : idxs.length ≤ 1) : balanceStrOf row idxs = "" := by
  unfold balanceStrOf
  rw [if_neg (by omega)]

lemma length_six (x0 x1 x2 x3 x4 x5 : String) :
    ([x0, x1, x2, x3, x4, x5] : List String).length = 6 := rfl

lemma getD3_six (x0 x1 x2 x3 x4 x5 : String) :
    List.getD [x0, x1, x2, x3, x4, x5] 3 "" = x3 := rfl

lemma getD4_six (x0 x1 x2 x3 x4 x5 : String) :
    List.getD [x0, x1, x2, x3, x4, x5] 4 "" = x4 := rfl

/-- Claim C1 (amended): for a table row that opens with a date-like cell
and is not header-detected (its joined lower-cased text containing both
"date" and "description"), with the money-like cells listed in order:
if there is no money-like cell, or the LAST money-like cell does not
parse, the row yields no record; if the last money-like cell parses to
`a`, the row yields exactly one six-field record whose amount field is
the two-decimal format of `a`, and whose balance field is the blank
string when fewer than two money-like cells exist, and otherwise is the
two-decimal format of the SECOND-TO-LAST money-like cell when that cell
parses and blank when it does not (`balanceNormOf`). -/
theorem c1_table_row_extraction (cells : List (Option String))
    (hne : cells ≠ [])
    (hdr : headerLike (cells.map clean_cell) = false)
    (hdate : looks_like_date ((cells.map clean_cell).headD "") = true) :
    (moneyCells (cells.map clean_cell) = [] →
      extract_transactions_from_table [cells] = [])
    ∧ (∀ s, (moneyCells (cells.map clean_cell)).getLast? = some s →
        parse_money s = none → extract_transactions_from_table [cells] = [])
    ∧ (∀ s a, (moneyCells (cells.map clean_cell)).getLast? = some s →
        parse_money s = some a →
        ∃ rec, extract_transactions_from_table [cells] = [rec]
          ∧ rec.length = 6
          ∧ rec.getD 3 "" = fmt2 a
          ∧ ((moneyCells (cells.map clean_cell)).length ≤ 1 → rec.getD 4 "" = "")
          ∧ ∀ s2, (moneyCells (cells.map clean_cell)).dropLast.getLast? = some s2 →
              rec.getD 4 "" = balanceNormOf s2) := by
  obtain ⟨h0, t, rfl⟩ : ∃ h0 t, cells = h0 :: t := by
    cases cells with
    | nil => exact absurd rfl hne
    | cons x xs => exact ⟨x, xs, rfl⟩
  have hdr' : headerLike (clean_cell h0 :: t.map clean_cell) = false := by
    simpa using hdr
  have hdate' : looks_like_date (clean_cell h0) = true := by simpa using hdate
  have hmapcons : (h0 :: t).map clean_cell = clean_cell h0 :: t.map clean_cell :=
    List.map_cons clean_cell h0 t
  set row : List String := clean_cell h0 :: t.map clean_cell with hrowdef
  set idxs : List Nat := moneyIndicesFrom 0 row with hidxsdef
  have hbridge : idxs.map (fun i => row.getD i "") = moneyCells row :=
    map_getD_moneyIndices row
  refine ⟨?_, ?_, ?_⟩
  · -- no money-like cell: the row is dropped
    intro hmc
    rw [hmapcons] at hmc
    have hidxnil : idxs = [] := by
      have := hbridge
      rw [hmc] at this
      exact List.map_eq_nil_iff.mp this
    have hamt : amountStrOf row idxs = "" := by
      unfold amountStrOf
      rw [hidxnil]
      rfl
    rw [extract_table_singleton,
      rowToTxn_eq_none h0 t hdr' hdate' (by rw [hamt]; exact parse_money_empty)]
  · -- last money-like cell does not parse: the row is dropped
    intro s hs hp
    rw [hmapcons] at hs
    rw [← hbridge, List.getLast?_map] at hs
    obtain ⟨li, hli, hfs⟩ := Option.map_eq_some'.mp hs
    rw [extract_table_singleton,
      rowToTxn_eq_none h0 t hdr' hdate'
        (by rw [amountStrOf_eq row idxs li hli, hfs]; exact hp)]
  · -- last money-like cell parses: exactly one record
    intro s a hs hp
    rw [hmapcons] at hs
    rw [← hbridge, List.getLast?_map] at hs
    obtain ⟨li, hli, hfs⟩ := Option.map_eq_some'.mp hs
    have hamt : parse_money (amountStrOf row idxs) = some a := by
      rw [amountStrOf_eq row idxs li hli, hfs]
      exact hp
    refine ⟨[clean_cell h0, (postDateOf (t.map clean_cell)).1,
        descriptionOf row (postDateOf (t.map clean_cell)).2, fmt2 a,
        balanceNormOf (balanceStrOf row idxs), joinWith " | " row],
      ?_, length_six .., getD3_six .., ?_, ?_⟩
    · rw [extract_table_singleton, rowToTxn_eq_some h0 t a hdr' hdate' hamt]
    · -- fewer than two money cells: blank balance
      intro hlen
      rw [hmapcons] at hlen
      have hlen' : idxs.length ≤ 1 := by
        have hlm : (idxs.map (fun i => row.getD i "")).length = (moneyCells row).length := by
          rw [hbridge]
        rw [List.length_map] at hlm
        omega
      rw [getD4_six, balanceStrOf_short row idxs hlen']
      rfl
    · -- second-to-last money cell drives the balance
      intro s2 hs2
      rw [hmapcons] at hs2
      rw [← hbridge, ← List.map_dropLast, List.getLast?_map] at hs2
      obtain ⟨bi, hbi, hfs2⟩ := Option.map_eq_some'.mp hs2
      have hdlne : idxs.dropLast ≠ [] := by
        intro hnil
        rw [hnil] at hbi
        simp at hbi
      have h2 : 2 ≤ idxs.length := by
        have h1 : 1 ≤ idxs.dropLast.length := List.length_pos.mpr hdlne
        have hld := List.length_dropLast idxs
        omega
      have hblt : bi < li :=
        pairwise_lt_penult_last idxs (moneyIndicesFrom_pairwise row 0) bi li hbi hli
      rw [getD4_six, balanceStrOf_eq row idxs bi li h2 hbi hli (Nat.ne_of_lt hblt), hfs2]

/-- Claim C1 (counterexample): (a) a row opening with a date-like cell
and holding a parseable money-like cell can still produce NO record,
because the header heuristic drops any row whose joined lower-cased
text contains "date" and "description" — here "update description";
(b) a produced record's balance need not be the parsed value of the
second-to-last money-like cell: `"-$1,234.56"` is money-like yet
`parse_money` fails on it, and the record's balance is blank. -/
theorem c1_counterexample :
    (looks_like_date "01/01/24" = true
      ∧ moneyCells (([some "01/01/24", some "update description", some "5.00"]).map clean_cell) =
          ["5.00"]
      ∧ parse_money "5.00" = some ⟨false, 500⟩
      ∧ extract_transactions_from_table
          [[some "01/01/24", some "update description", some "5.00"]] = [])
    ∧ (looks_like_money "-$1,234.56" = true
      ∧ parse_money "-$1,234.56" = none
      ∧ moneyCells (([some "01/01/24", some "STORE", some "-$1,234.56", some "45.00"]).map
          clean_cell) = ["-$1,234.56", "45.00"]
      ∧ extract_transactions_from_table
          [[some "01/01/24", some "STORE", some "-$1,234.56", some "45.00"]] =
          [["01/01/24", "", "STORE", "45.00", "",
            "01/01/24 | STORE | -$1,234.56 | 45.00"]]) := by
  exact ⟨⟨by decide, by decide, by decide, by decide⟩,
    ⟨by decide, by decide, by decide, by decide⟩⟩

/-- Witness for C1: the amended theorem applied at the concrete row
`["03/01/24", "STORE", "12.34", "1,000.00"]`. -/
theorem c1_table_row_extraction_witness :
    ∃ rec, extract_transactions_from_table
        [[some "03/01/24", some "STORE", some "12.34", some "1,000.00"]] = [rec]
      ∧ rec.getD 3 "" = "1000.00"
      ∧ rec.getD 4 "" = "12.34" := by
  obtain ⟨rec, h1, _, h3, _, h5⟩ :=
    (c1_table_row_extraction [some "03/01/24", some "STORE", some "12.34", some "1,000.00"]
      (by decide) (by decide) (by decide)).2.2 "1,000.00" ⟨false, 100000⟩
      (by decide) (by decide)
  refine ⟨rec, h1, ?_, ?_⟩
  · rw [h3]
    decide
  · rw [h5 "12.34" (by decide)]
    decide

/-- Witness for C5: the theorem applied to a concrete two-page document
with readable text and no table transactions, and to a one-page
document whose tables do produce a transaction. -/
theorem c5_line_pass_invocation_witness :
    invocationLog (DecodeOutcome.ok
      [⟨Except.ok [], Except.ok (some "a")⟩, ⟨Except.ok [], Except.ok (some "b")⟩]) =
      List.range 2
    ∧ invocationLog (DecodeOutcome.ok
        [⟨Except.ok [[[some "03/01/24", some "A", some "4.50"]]],
          Except.ok (some "x")⟩]) = [] :=
  ⟨(c5_line_pass_invocation _).2.2.1 (by decide) (by decide),
   (c5_line_pass_invocation _).1 (by decide)⟩

end Monarch
